import Mathlib

/-!
Verification of the version-targeted repository bootstrap core of
`create-aether-cms` (bin/create-aether-cms.js and bin/helpers.js).

JavaScript strings are modelled as `List Char` (`JSStr`); JavaScript string
primitives (`includes`, `split`, `trim`, `toLowerCase`, default `sort`) are
modelled by executable Lean functions on `JSStr`.  Fallible git commands are
modelled with `Except`, where the error payload carries the repository state
at the moment the command failed (a failed git command leaves the repository
unchanged, but earlier commands of the same compound step may already have
mutated it).
-/

/-- A JavaScript string, modelled as its list of characters. -/
abbrev JSStr := List Char

/-- Convert a Lean string literal to the `JSStr` model. -/
def str (s : String) : JSStr := s.data

/-- JavaScript truthiness of an optional string field: `undefined`/`null`
and the empty string are falsy, every other string is truthy. -/
def truthy : Option JSStr → Bool
  | none => false
  | some s => !s.isEmpty

/-- Model of `a.startsWith(b)` / list prefix test, written explicitly so all
later proofs are self-contained. -/
def isPrefOf : JSStr → JSStr → Bool
  | [], _ => true
  | _ :: _, [] => false
  | a :: s, b :: t => if a = b then isPrefOf s t else false

/-- Model of JavaScript `hay.includes(needle)` (substring containment). -/
def jsIncludes (hay needle : JSStr) : Bool :=
  isPrefOf needle hay ||
    match hay with
    | [] => false
    | _ :: rest => jsIncludes rest needle

/-- `needle` occurs as a contiguous substring of `hay`. -/
def Occurs (needle hay : JSStr) : Prop := ∃ s t, hay = s ++ needle ++ t

theorem isPrefOf_iff (s t : JSStr) : isPrefOf s t = true ↔ ∃ r, t = s ++ r := by
  induction s generalizing t with
  | nil =>
    constructor
    · intro _; exact ⟨t, rfl⟩
    · intro _; rfl
  | cons a s ih =>
    cases t with
    | nil => simp [isPrefOf]
    | cons b t =>
      by_cases hab : a = b
      · subst hab
        simp [isPrefOf, ih, List.cons_append]
      · simp only [isPrefOf, if_neg hab]
        constructor
        · intro h; simp at h
        · rintro ⟨r, hr⟩
          rw [List.cons_append] at hr
          injection hr with h1 h2
          exact absurd h1.symm hab

theorem jsIncludes_cons (c : Char) (rest needle : JSStr) :
    jsIncludes (c :: rest) needle =
      (isPrefOf needle (c :: rest) || jsIncludes rest needle) := by
  simp [jsIncludes]

theorem jsIncludes_iff (hay needle : JSStr) :
    jsIncludes hay needle = true ↔ Occurs needle hay := by
  induction hay with
  | nil =>
    cases needle with
    | nil =>
      constructor
      · intro _; exact ⟨[], [], rfl⟩
      · intro _; decide
    | cons c cs =>
      constructor
      · intro h; simp [jsIncludes, isPrefOf] at h
      · rintro ⟨s, t, hst⟩
        exact absurd hst.symm (by simp)
  | cons c rest ih =>
    rw [jsIncludes_cons, Bool.or_eq_true, ih, isPrefOf_iff]
    constructor
    · rintro (⟨r, hr⟩ | ⟨s, t, rfl⟩)
      · exact ⟨[], r, by simpa using hr⟩
      · exact ⟨c :: s, t, rfl⟩
    · rintro ⟨s, t, hst⟩
      cases s with
      | nil =>
        left
        exact ⟨t, by simpa using hst⟩
      | cons d s =>
        right
        rw [List.cons_append, List.cons_append] at hst
        injection hst with h1 h2
        exact ⟨s, t, by simpa using h2⟩

-- ============================================================================
-- Target Resolver (determineTarget, bin/create-aether-cms.js)
-- ============================================================================

/-- The parsed command-line options relevant to version targeting
(`parseArguments` produces `version`, `tag`, `hash`; absent flags are
`none`). -/
structure Options where
  version : Option JSStr
  tag : Option JSStr
  hash : Option JSStr
deriving DecidableEq

/-- The resolved target of `determineTarget`. -/
structure ResolvedTarget where
  targetType : JSStr
  target : JSStr
deriving DecidableEq

/-- Model of `determineTarget(options)`:
priority hash > tag > version, with "latest" as the default. -/
def determineTarget (options : Options) : ResolvedTarget :=
  if truthy options.hash then
    { targetType := str "hash", target := options.hash.getD [] }
  else if truthy options.tag then
    { targetType := str "tag", target := options.tag.getD [] }
  else if truthy options.version && !(options.version.getD [] = str "latest" : Bool) then
    { targetType := str "version", target := options.version.getD [] }
  else
    { targetType := str "latest", target := str "latest" }

/-- C1: for every parsed selector, the Target Resolver returns the single
resolved target whose kind is the highest-priority truthy (non-empty) field,
with priority Hash > Tag > Version-other-than-"latest"; when no such field is
set it returns the `latest` target.  The resolver is a total (pure) Lean
function, so it cannot fail. -/
theorem determineTarget_priority (o : Options) :
    (truthy o.hash = true →
      determineTarget o = ⟨str "hash", o.hash.getD []⟩) ∧
    (truthy o.hash = false → truthy o.tag = true →
      determineTarget o = ⟨str "tag", o.tag.getD []⟩) ∧
    (truthy o.hash = false → truthy o.tag = false → truthy o.version = true →
      o.version.getD [] ≠ str "latest" →
      determineTarget o = ⟨str "version", o.version.getD []⟩) ∧
    (truthy o.hash = false → truthy o.tag = false →
      (truthy o.version = false ∨ o.version.getD [] = str "latest") →
      determineTarget o = ⟨str "latest", str "latest"⟩) := by
  refine ⟨?_, ?_, ?_, ?_⟩
  · intro h1; simp [determineTarget, h1]
  · intro h1 h2; simp [determineTarget, h1, h2]
  · intro h1 h2 h3 h4; simp [determineTarget, h1, h2, h3, h4]
  · intro h1 h2 h3
    rcases h3 with h3 | h3 <;> simp [determineTarget, h1, h2, h3]

/-- Witness for C1: evaluating the resolver on concrete selectors. -/
theorem determineTarget_priority_witness :
    determineTarget ⟨some (str "v1.2.0"), some (str "stable"), some (str "abc1234")⟩ =
      ⟨str "hash", str "abc1234"⟩ ∧
    determineTarget ⟨some (str "latest"), none, none⟩ =
      ⟨str "latest", str "latest"⟩ := by
  constructor
  · exact (determineTarget_priority ⟨some (str "v1.2.0"), some (str "stable"), some (str "abc1234")⟩).1
      (by decide)
  · exact (determineTarget_priority ⟨some (str "latest"), none, none⟩).2.2.2
      (by decide) (by decide) (Or.inr (by decide))

-- ============================================================================
-- Remote Existence Checker (validateTarget, bin/helpers.js)
-- ============================================================================

/-- The characters of `"refs/tags/"`, the ref prefix searched for by
`validateTarget`. -/
def refsTags : JSStr := ['r', 'e', 'f', 's', '/', 't', 'a', 'g', 's', '/']

/-- The characters of the annotated-tag dereference marker searched for by
the suggestion-list filter (`tag.includes(...)`). -/
def derefMark : JSStr := ['^', '{', '}']

/-- Lowercase hexadecimal digits, the alphabet of git object ids as printed
by `git ls-remote`. -/
def isHexLower (c : Char) : Bool :=
  (('0' ≤ c : Bool) && (c ≤ '9' : Bool)) ||
    (('a' ≤ c : Bool) && (c ≤ 'f' : Bool))

/-- Model of JavaScript `s.split("\n")` (single-character separator). -/
def splitOnNl : JSStr → List JSStr
  | [] => [[]]
  | c :: rest =>
    if c = '\n' then [] :: splitOnNl rest
    else
      match splitOnNl rest with
      | [] => [[c]]
      | l :: ls => (c :: l) :: ls

/-- Model of `line.match(/refs\/tags\/(.+)$/)?.[1]`: the remainder of the
line after the first occurrence of `refs/tags/`, or `none` when there is no
occurrence with a non-empty remainder (the regex requires at least one
captured character, and an empty remainder means the line ends there, so no
later occurrence can match either). -/
def tagCapture : JSStr → Option JSStr
  | [] => none
  | c :: rest =>
    if isPrefOf refsTags (c :: rest) then
      if (c :: rest).drop refsTags.length = [] then none
      else some ((c :: rest).drop refsTags.length)
    else tagCapture rest

/-- Model of JavaScript's default `Array.prototype.sort()` on strings:
the result is the input sorted ascending by the lexicographic order on
character values (for BMP strings this coincides with the UTF-16 code-unit
comparison JavaScript performs). -/
def jsSortAsc (l : List JSStr) : List JSStr :=
  List.insertionSort (fun a b : JSStr => a ≤ b) l

/-- Model of the suggestion-list computation in `validateTarget`: split the
`git ls-remote --tags` output into lines, keep the lines mentioning
`refs/tags/`, extract the tag names, drop dereference entries, sort and
reverse (descending). -/
def availableTags (tags : JSStr) : List JSStr :=
  (jsSortAsc
    ((((splitOnNl tags).filter (fun line => jsIncludes line refsTags)).filterMap
        tagCapture).filter
      (fun tag => !(jsIncludes tag derefMark)))).reverse

/-- The observable outcome of `validateTarget`: the returned boolean, plus
the suggestion list and omitted-tag count that the function prints on a
not-found result. -/
structure ValidationOutcome where
  valid : Bool
  suggestions : List JSStr
  omittedCount : Nat
deriving DecidableEq

/-- Model of `validateTarget(target, type)`.  The result of the
`git ls-remote --tags` query is passed explicitly: `Except.error` models the
query itself throwing (network/auth failure), `Except.ok tags` its raw
stdout. -/
def validateTarget (target ttype : JSStr) (query : Except Unit JSStr) :
    ValidationOutcome :=
  if ttype = str "hash" ∨ target = str "latest" then ⟨true, [], 0⟩
  else
    match query with
    | .error _ => ⟨true, [], 0⟩
    | .ok tags =>
      if jsIncludes tags (refsTags ++ target) then ⟨true, [], 0⟩
      else
        let available := availableTags tags
        ⟨false, available.take 10, available.length - 10⟩

/-- One entry of the remote tag list: the object id and the tag ref name
(the part of the ref after `refs/tags/`). -/
abbrev TagEntry := JSStr × JSStr

/-- One line of `git ls-remote --tags` output (without the newline):
`<oid>\t refs/tags/<name>`. -/
def lineOf (e : TagEntry) : JSStr := e.1 ++ '\t' :: (refsTags ++ e.2)

/-- The raw stdout of `git ls-remote --tags`: one newline-terminated line
per tag ref. -/
def renderTags : List TagEntry → JSStr
  | [] => []
  | e :: rest => lineOf e ++ '\n' :: renderTags rest

/-- Well-formedness of a remote tag list as printed by git: object ids are
lowercase hex, names are non-empty, contain no newline or tab, and do not
themselves contain the `refs/tags/` marker. -/
def WfEntries (entries : List TagEntry) : Prop :=
  ∀ e ∈ entries,
    (∀ c ∈ e.1, isHexLower c = true) ∧ e.2 ≠ [] ∧ '\n' ∉ e.2 ∧ '\t' ∉ e.2 ∧
      jsIncludes e.2 refsTags = false

instance : DecidablePred WfEntries := fun entries =>
  List.decidableBAll _ entries

/-- Well-formedness of a requested target string: no newline and no tab. -/
def WfTarget (t : JSStr) : Prop := '\n' ∉ t ∧ '\t' ∉ t

/-- The tail of `refsTags` after its leading `'r'`. -/
def tagsTail : JSStr := ['e', 'f', 's', '/', 't', 'a', 'g', 's', '/']

theorem occExtendRight {n A : JSStr} (Z : JSStr) (h : Occurs n A) :
    Occurs n (A ++ Z) := by
  obtain ⟨s, t, rfl⟩ := h
  exact ⟨s, t ++ Z, by simp [List.append_assoc]⟩

theorem occExtendLeft {n B : JSStr} (A : JSStr) (h : Occurs n B) :
    Occurs n (A ++ B) := by
  obtain ⟨s, t, rfl⟩ := h
  exact ⟨A ++ s, t, by simp [List.append_assoc]⟩

theorem prefThroughSep :
    ∀ (n A B : JSStr) (c : Char), c ∉ n →
      (∃ t, A ++ c :: B = n ++ t) → ∃ r, A = n ++ r := by
  intro n
  induction n with
  | nil => intro A B c _ _; exact ⟨A, rfl⟩
  | cons d m ih =>
    intro A B c hc h
    obtain ⟨t, ht⟩ := h
    cases A with
    | nil =>
      rw [List.nil_append, List.cons_append] at ht
      injection ht with h1 h2
      exact absurd (by rw [h1]; exact List.mem_cons_self _ _) hc
    | cons a A2 =>
      rw [List.cons_append, List.cons_append] at ht
      injection ht with h1 h2
      obtain ⟨r, hr⟩ := ih A2 B c (fun hm => hc (List.mem_cons_of_mem _ hm)) ⟨t, h2⟩
      exact ⟨r, by rw [h1, hr, List.cons_append]⟩

theorem occSplitSep {c : Char} {n : JSStr} (hc : c ∉ n) :
    ∀ A B : JSStr, Occurs n (A ++ c :: B) → Occurs n A ∨ Occurs n B := by
  intro A B
  induction A with
  | nil =>
    rintro ⟨s, t, hst⟩
    rw [List.nil_append] at hst
    cases s with
    | nil =>
      cases n with
      | nil => exact Or.inl ⟨[], [], rfl⟩
      | cons d m =>
        rw [List.nil_append, List.cons_append] at hst
        injection hst with h1 h2
        exact absurd (by rw [h1]; exact List.mem_cons_self _ _) hc
    | cons e s =>
      rw [List.cons_append, List.cons_append] at hst
      injection hst with h1 h2
      exact Or.inr ⟨s, t, h2⟩
  | cons a A2 ih =>
    rintro ⟨s, t, hst⟩
    cases s with
    | nil =>
      rw [List.nil_append] at hst
      obtain ⟨r, hr⟩ :=
        prefThroughSep n (a :: A2) B c hc ⟨t, by simpa [List.cons_append] using hst⟩
      exact Or.inl ⟨[], r, by simpa using hr⟩
    | cons e s =>
      rw [List.cons_append, List.cons_append, List.cons_append] at hst
      injection hst with h1 h2
      rcases ih ⟨s, t, h2⟩ with h | h
      · obtain ⟨s2, t2, h3⟩ := h
        exact Or.inl ⟨a :: s2, t2, by simp [h3, List.append_assoc]⟩
      · exact Or.inr h

theorem prefFromMid :
    ∀ (P s X n : JSStr), 'r' ∉ P → s ++ 'r' :: X = P ++ n →
      ∃ s2, s = P ++ s2 := by
  intro P
  induction P with
  | nil => intro s X n _ _; exact ⟨s, rfl⟩
  | cons p P2 ih =>
    intro s X n hr heq
    cases s with
    | nil =>
      rw [List.nil_append, List.cons_append] at heq
      injection heq with h1 h2
      exact absurd (by rw [← h1]; exact List.mem_cons_self _ _) hr
    | cons a s2 =>
      rw [List.cons_append, List.cons_append] at heq
      injection heq with h1 h2
      obtain ⟨s3, hs3⟩ := ih s2 X n (fun hm => hr (List.mem_cons_of_mem _ hm)) h2
      exact ⟨s3, by rw [h1, hs3, List.cons_append]⟩

theorem occSelf (t n : JSStr) (hno : ¬ Occurs refsTags n)
    (h : Occurs (refsTags ++ t) (refsTags ++ n)) : ∃ r, n = t ++ r := by
  obtain ⟨s, u, hsu⟩ := h
  cases s with
  | nil =>
    rw [List.nil_append, List.append_assoc] at hsu
    exact ⟨u, List.append_cancel_left hsu⟩
  | cons c s2 =>
    exfalso
    rw [show refsTags = 'r' :: tagsTail from rfl] at hsu
    simp only [List.cons_append, List.append_assoc] at hsu
    injection hsu with h1 h2
    obtain ⟨s3, hs3⟩ :=
      prefFromMid tagsTail s2 (tagsTail ++ (t ++ u)) n (by decide) h2.symm
    rw [hs3, List.append_assoc] at h2
    have hn : n = s3 ++ 'r' :: (tagsTail ++ (t ++ u)) := List.append_cancel_left h2
    exact hno ⟨s3, t ++ u, by
      rw [hn, show refsTags = 'r' :: tagsTail from rfl]
      simp [List.cons_append, List.append_assoc]⟩

theorem occLine (e : TagEntry) (t : JSStr)
    (hhex : ∀ c ∈ e.1, isHexLower c = true)
    (hnm : jsIncludes e.2 refsTags = false)
    (ht : '\t' ∉ t) :
    Occurs (refsTags ++ t) (lineOf e) ↔ ∃ r, e.2 = t ++ r := by
  have hnoTab : '\t' ∉ refsTags ++ t := by
    intro hm
    rcases List.mem_append.1 hm with h | h
    · revert h; decide
    · exact ht h
  have hnocc : ¬ Occurs refsTags e.2 := fun h =>
    absurd ((jsIncludes_iff _ _).mpr h) (by simp [hnm])
  constructor
  · intro h
    rcases occSplitSep hnoTab e.1 (refsTags ++ e.2) h with h | h
    · exfalso
      obtain ⟨s, u, hsu⟩ := h
      have hr : 'r' ∈ e.1 := by
        rw [hsu]
        refine List.mem_append.2 (Or.inl ?_)
        refine List.mem_append.2 (Or.inr ?_)
        refine List.mem_append.2 (Or.inl ?_)
        decide
      exact absurd (hhex _ hr) (by decide)
    · exact occSelf t e.2 hnocc h
  · rintro ⟨r, hr⟩
    have hocc : Occurs (refsTags ++ t) (refsTags ++ e.2) :=
      ⟨[], r, by rw [hr]; simp [List.append_assoc]⟩
    exact occExtendLeft e.1 (occExtendLeft ['\t'] hocc)

theorem occRender (t : JSStr) (ht : WfTarget t) :
    ∀ entries, WfEntries entries →
      (Occurs (refsTags ++ t) (renderTags entries) ↔
        ∃ e ∈ entries, ∃ r, e.2 = t ++ r) := by
  have hnl : '\n' ∉ refsTags ++ t := by
    intro hm
    rcases List.mem_append.1 hm with h | h
    · revert h; decide
    · exact ht.1 h
  intro entries
  induction entries with
  | nil =>
    intro _
    constructor
    · rintro ⟨s, u, hsu⟩
      exfalso
      have hlen : (renderTags []).length = (s ++ (refsTags ++ t) ++ u).length := by
        rw [hsu]
      simp [renderTags, refsTags] at hlen
      omega
    · rintro ⟨e, he, _⟩
      exact absurd he (List.not_mem_nil e)
  | cons e rest ih =>
    intro hw
    have hwe := hw e (List.mem_cons_self _ _)
    have hwrest : WfEntries rest := fun x hx => hw x (List.mem_cons_of_mem _ hx)
    rw [show renderTags (e :: rest) = lineOf e ++ '\n' :: renderTags rest from rfl]
    constructor
    · intro h
      rcases occSplitSep hnl (lineOf e) _ h with h | h
      · obtain ⟨r, hr⟩ := (occLine e t hwe.1 hwe.2.2.2.2 ht.2).1 h
        exact ⟨e, List.mem_cons_self _ _, r, hr⟩
      · obtain ⟨e2, he2, r, hr⟩ := (ih hwrest).1 h
        exact ⟨e2, List.mem_cons_of_mem _ he2, r, hr⟩
    · rintro ⟨e2, he2, r, hr⟩
      rcases List.mem_cons.1 he2 with rfl | he2
      · exact occExtendRight _ ((occLine e2 t hwe.1 hwe.2.2.2.2 ht.2).2 ⟨r, hr⟩)
      · exact occExtendLeft _ (occExtendLeft ['\n'] ((ih hwrest).2 ⟨e2, he2, r, hr⟩))

instance : DecidablePred WfTarget := fun t => by
  unfold WfTarget; infer_instance

/-- Concrete remote tag list used for counterexamples and witnesses:
tags `v1.0.0` and `v1.2.0`. -/
def cexEntries : List TagEntry :=
  [(str "a1b2c3d", str "v1.0.0"), (str "e4f5a6b", str "v1.2.0")]

/-- C2 counterexample: with remote tags `v1.0.0` and `v1.2.0`, the request
`v1.2` matches no tag name exactly (with or without a dereference suffix),
yet the checker reports "exists", because the code tests substring
containment of `refs/tags/v1.2` in the raw `ls-remote` output and `v1.2` is
a prefix of `v1.2.0`. -/
theorem validateTarget_prefix_reported_found :
    (validateTarget (str "v1.2") (str "tag")
        (.ok (renderTags cexEntries))).valid = true ∧
      ¬ ∃ e ∈ cexEntries, e.2 = str "v1.2" := by decide

/-- C2 (amended): for a well-formed remote tag list, the checker reports
"exists" if and only if the requested value is a *prefix* of some tag ref
name (exact matches included); a request that is merely a prefix of an
existing tag name is therefore also reported as found, and dereference
entries (`...^{}`) participate like any other ref. -/
theorem validateTarget_exists_iff (entries : List TagEntry)
    (target ttype : JSStr) (hw : WfEntries entries) (ht : WfTarget target)
    (hty : ¬ (ttype = str "hash" ∨ target = str "latest")) :
    (validateTarget target ttype (.ok (renderTags entries))).valid = true ↔
      ∃ e ∈ entries, ∃ r, e.2 = target ++ r := by
  have hred : validateTarget target ttype (.ok (renderTags entries)) =
      if jsIncludes (renderTags entries) (refsTags ++ target) = true then
        ⟨true, [], 0⟩
      else
        ⟨false, (availableTags (renderTags entries)).take 10,
          (availableTags (renderTags entries)).length - 10⟩ := by
    unfold validateTarget
    rw [if_neg hty]
  rw [hred]
  by_cases h : jsIncludes (renderTags entries) (refsTags ++ target) = true
  · rw [if_pos h]
    simp only [true_iff]
    exact (occRender target ht entries hw).1 ((jsIncludes_iff _ _).1 h)
  · rw [if_neg h]
    constructor
    · intro hh; simp at hh
    · intro hex
      exact absurd ((jsIncludes_iff _ _).2 ((occRender target ht entries hw).2 hex)) h

/-- Witness for C2 (amended): instantiating the characterization on the
concrete tag list — the exact match `v1.0.0` is reported as found. -/
theorem validateTarget_exists_iff_witness :
    (validateTarget (str "v1.0.0") (str "tag")
        (.ok (renderTags cexEntries))).valid = true :=
  (validateTarget_exists_iff cexEntries (str "v1.0.0") (str "tag")
      (by decide) (by decide) (by decide)).2
    ⟨(str "a1b2c3d", str "v1.0.0"), by decide, [], by decide⟩

theorem splitOnNl_sep :
    ∀ A B : JSStr, '\n' ∉ A → splitOnNl (A ++ '\n' :: B) = A :: splitOnNl B := by
  intro A
  induction A with
  | nil =>
    intro B _
    simp [splitOnNl]
  | cons a A2 ih =>
    intro B hnl
    have ha : ¬ a = '\n' := fun h => hnl (h ▸ List.mem_cons_self _ _)
    rw [List.cons_append]
    rw [show splitOnNl (a :: (A2 ++ '\n' :: B)) =
        if a = '\n' then [] :: splitOnNl (A2 ++ '\n' :: B)
        else
          match splitOnNl (A2 ++ '\n' :: B) with
          | [] => [[a]]
          | l :: ls => (a :: l) :: ls from rfl]
    rw [if_neg ha, ih B (fun h => hnl (List.mem_cons_of_mem _ h))]

theorem tagCapture_at (n : JSStr) (hn : n ≠ []) :
    tagCapture (refsTags ++ n) = some n := by
  have hpref : isPrefOf refsTags (refsTags ++ n) = true :=
    (isPrefOf_iff _ _).2 ⟨n, rfl⟩
  have hdrop : (refsTags ++ n).drop refsTags.length = n := List.drop_left _ _
  rw [show refsTags ++ n = 'r' :: (tagsTail ++ n) from rfl] at hpref hdrop ⊢
  rw [show tagCapture ('r' :: (tagsTail ++ n)) =
      if isPrefOf refsTags ('r' :: (tagsTail ++ n)) = true then
        if ('r' :: (tagsTail ++ n)).drop refsTags.length = [] then none
        else some (('r' :: (tagsTail ++ n)).drop refsTags.length)
      else tagCapture (tagsTail ++ n) from rfl]
  rw [if_pos hpref, hdrop, if_neg hn]

theorem tagCapture_line (h n : JSStr)
    (hh : ∀ c ∈ h, isHexLower c = true) (hn : n ≠ []) :
    tagCapture (h ++ '\t' :: (refsTags ++ n)) = some n := by
  induction h with
  | nil =>
    rw [List.nil_append]
    have hcond : ¬ isPrefOf refsTags ('\t' :: (refsTags ++ n)) = true := by
      simp [refsTags, isPrefOf]
    rw [show tagCapture ('\t' :: (refsTags ++ n)) =
        if isPrefOf refsTags ('\t' :: (refsTags ++ n)) = true then
          if ('\t' :: (refsTags ++ n)).drop refsTags.length = [] then none
          else some (('\t' :: (refsTags ++ n)).drop refsTags.length)
        else tagCapture (refsTags ++ n) from rfl]
    rw [if_neg hcond]
    exact tagCapture_at n hn
  | cons a h2 ih =>
    have ha : ¬ a = 'r' := by
      intro hr
      have := hh a (List.mem_cons_self _ _)
      rw [hr] at this
      revert this; decide
    have hcond :
        ¬ isPrefOf refsTags (a :: (h2 ++ '\t' :: (refsTags ++ n))) = true := by
      rw [show isPrefOf refsTags (a :: (h2 ++ '\t' :: (refsTags ++ n))) =
          if 'r' = a then isPrefOf tagsTail (h2 ++ '\t' :: (refsTags ++ n))
          else false from rfl]
      rw [if_neg (fun hx => ha hx.symm)]
      simp
    rw [List.cons_append]
    rw [show tagCapture (a :: (h2 ++ '\t' :: (refsTags ++ n))) =
        if isPrefOf refsTags (a :: (h2 ++ '\t' :: (refsTags ++ n))) = true then
          if (a :: (h2 ++ '\t' :: (refsTags ++ n))).drop refsTags.length = [] then none
          else some ((a :: (h2 ++ '\t' :: (refsTags ++ n))).drop refsTags.length)
        else tagCapture (h2 ++ '\t' :: (refsTags ++ n)) from rfl]
    rw [if_neg hcond]
    exact ih (fun c hc => hh c (List.mem_cons_of_mem _ hc))

theorem parsedNames :
    ∀ entries, WfEntries entries →
      ((splitOnNl (renderTags entries)).filter
          (fun line => jsIncludes line refsTags)).filterMap tagCapture =
        entries.map (fun e => e.2) := by
  intro entries
  induction entries with
  | nil => intro _; decide
  | cons e rest ih =>
    intro hw
    have hwe := hw e (List.mem_cons_self _ _)
    have hwrest : WfEntries rest := fun x hx => hw x (List.mem_cons_of_mem _ hx)
    have hlineNl : '\n' ∉ lineOf e := by
      intro hm
      unfold lineOf at hm
      rcases List.mem_append.1 hm with hm | hm
      · have := hwe.1 _ hm
        revert this; decide
      · rcases List.mem_cons.1 hm with hm | hm
        · revert hm; decide
        · rcases List.mem_append.1 hm with hm | hm
          · revert hm; decide
          · exact hwe.2.2.1 hm
    have hline : jsIncludes (lineOf e) refsTags = true := by
      refine (jsIncludes_iff _ _).2 ⟨e.1 ++ ['\t'], e.2, ?_⟩
      unfold lineOf
      simp [List.append_assoc]
    rw [show renderTags (e :: rest) = lineOf e ++ '\n' :: renderTags rest from rfl]
    rw [splitOnNl_sep _ _ hlineNl]
    rw [show List.filter (fun line => jsIncludes line refsTags)
          (lineOf e :: splitOnNl (renderTags rest)) =
        lineOf e :: List.filter (fun line => jsIncludes line refsTags)
          (splitOnNl (renderTags rest)) by simp [List.filter_cons, hline]]
    rw [show lineOf e = e.1 ++ '\t' :: (refsTags ++ e.2) from rfl]
    rw [List.filterMap_cons, tagCapture_line e.1 e.2 hwe.1 hwe.2.1]
    rw [List.map_cons, ih hwrest]

theorem availableTags_renders (entries : List TagEntry) (hw : WfEntries entries) :
    availableTags (renderTags entries) =
      (jsSortAsc ((entries.map (fun e => e.2)).filter
        (fun tag => !(jsIncludes tag derefMark)))).reverse := by
  unfold availableTags
  rw [parsedNames entries hw]

/-- C3 counterexample: with remote tags `v1.0.0` and `v1.2.0`, the request
`v1.0` is not in the tag list, yet the checker reports "exists" (and hence
produces no suggestion list at all), because `refs/tags/v1.0` occurs as a
substring of the raw output. -/
theorem validateTarget_notfound_cex :
    (validateTarget (str "v1.0") (str "tag")
        (.ok (renderTags cexEntries))).valid = true ∧
      ¬ ∃ e ∈ cexEntries, e.2 = str "v1.0" := by decide

/-- C3 (amended): for every well-formed remote tag list and every requested
target that is not a prefix of any listed tag name (under the original
claim's reading, "not in it" — but the code only reports not-found when the
value is not even a prefix), the checker reports not-found, and the
suggestion list is the list of existing tag names with dereference-suffix
entries filtered out, sorted lexicographically descending, truncated to at
most the first 10 names, together with the count of the omitted remainder. -/
theorem validateTarget_suggestions (entries : List TagEntry)
    (target ttype : JSStr) (hw : WfEntries entries) (ht : WfTarget target)
    (hty : ¬ (ttype = str "hash" ∨ target = str "latest"))
    (hnf : ∀ e ∈ entries, isPrefOf target e.2 = false) :
    (validateTarget target ttype (.ok (renderTags entries))).valid = false ∧
    ∃ L : List JSStr,
      L.Perm ((entries.map (fun e => e.2)).filter
        (fun tag => !(jsIncludes tag derefMark))) ∧
      List.Sorted (fun a b : JSStr => b ≤ a) L ∧
      (validateTarget target ttype (.ok (renderTags entries))).suggestions =
        L.take 10 ∧
      (validateTarget target ttype (.ok (renderTags entries))).omittedCount =
        L.length - 10 := by
  have hincl : ¬ jsIncludes (renderTags entries) (refsTags ++ target) = true := by
    intro h
    obtain ⟨e, he, r, hr⟩ :=
      (occRender target ht entries hw).1 ((jsIncludes_iff _ _).1 h)
    have : isPrefOf target e.2 = true := (isPrefOf_iff _ _).2 ⟨r, hr⟩
    rw [hnf e he] at this
    exact absurd this (by simp)
  have hred : validateTarget target ttype (.ok (renderTags entries)) =
      ⟨false, (availableTags (renderTags entries)).take 10,
        (availableTags (renderTags entries)).length - 10⟩ := by
    unfold validateTarget
    rw [if_neg hty]
    rw [show (match (.ok (renderTags entries) : Except Unit JSStr) with
        | .error _ => (⟨true, [], 0⟩ : ValidationOutcome)
        | .ok tags =>
          if jsIncludes tags (refsTags ++ target) = true then ⟨true, [], 0⟩
          else
            let available := availableTags tags
            ⟨false, available.take 10, available.length - 10⟩) =
        if jsIncludes (renderTags entries) (refsTags ++ target) = true then
          (⟨true, [], 0⟩ : ValidationOutcome)
        else
          ⟨false, (availableTags (renderTags entries)).take 10,
            (availableTags (renderTags entries)).length - 10⟩ from rfl]
    rw [if_neg hincl]
  rw [hred, availableTags_renders entries hw]
  refine ⟨rfl, (jsSortAsc ((entries.map (fun e => e.2)).filter
    (fun tag => !(jsIncludes tag derefMark)))).reverse, ?_, ?_, rfl, ?_⟩
  · exact (List.reverse_perm _).trans (List.perm_insertionSort _ _)
  · unfold List.Sorted
    rw [List.pairwise_reverse]
    exact List.sorted_insertionSort _ _
  · rw [List.length_reverse]

/-- Witness for C3 (amended): the spec's own example — tags `v1.0.0` and
`v1.2.0`, request `v1.1.0` — reports not-found with both tags suggested in
descending order. -/
theorem validateTarget_suggestions_witness :
    (validateTarget (str "v1.1.0") (str "tag")
        (.ok (renderTags cexEntries))).valid = false ∧
    ∃ L : List JSStr,
      L.Perm ((cexEntries.map (fun e => e.2)).filter
        (fun tag => !(jsIncludes tag derefMark))) ∧
      List.Sorted (fun a b : JSStr => b ≤ a) L ∧
      (validateTarget (str "v1.1.0") (str "tag")
          (.ok (renderTags cexEntries))).suggestions = L.take 10 ∧
      (validateTarget (str "v1.1.0") (str "tag")
          (.ok (renderTags cexEntries))).omittedCount = L.length - 10 :=
  validateTarget_suggestions cexEntries (str "v1.1.0") (str "tag")
    (by decide) (by decide) (by decide) (by decide)

/-- C4: if the remote tag-list query itself fails, the checker reports
"valid" (with no suggestions), for every target and type; and whenever the
checker reports invalid, the query must have succeeded and returned output
in which the requested ref does not occur — only an actual not-found result
can abort the pipeline. -/
theorem validateTarget_query_failure (target ttype : JSStr) :
    validateTarget target ttype (.error ()) = ⟨true, [], 0⟩ ∧
    ∀ q : Except Unit JSStr, (validateTarget target ttype q).valid = false →
      ∃ tags, q = .ok tags ∧
        jsIncludes tags (refsTags ++ target) = false := by
  constructor
  · unfold validateTarget
    by_cases hty : ttype = str "hash" ∨ target = str "latest"
    · rw [if_pos hty]
    · rw [if_neg hty]
  · intro q hq
    unfold validateTarget at hq
    by_cases hty : ttype = str "hash" ∨ target = str "latest"
    · rw [if_pos hty] at hq
      simp at hq
    · rw [if_neg hty] at hq
      cases q with
      | error e => simp at hq
      | ok tags =>
        refine ⟨tags, rfl, ?_⟩
        by_cases h : jsIncludes tags (refsTags ++ target) = true
        · exfalso
          rw [show (match (.ok tags : Except Unit JSStr) with
              | .error _ => (⟨true, [], 0⟩ : ValidationOutcome)
              | .ok tags =>
                if jsIncludes tags (refsTags ++ target) = true then ⟨true, [], 0⟩
                else
                  let available := availableTags tags
                  ⟨false, available.take 10, available.length - 10⟩) =
              (if jsIncludes tags (refsTags ++ target) = true then
                (⟨true, [], 0⟩ : ValidationOutcome)
              else
                ⟨false, (availableTags tags).take 10,
                  (availableTags tags).length - 10⟩) from rfl, if_pos h] at hq
          simp at hq
        · simpa using h

/-- Witness for C4: a failing query on a concrete tag target reports valid,
and a concrete not-found outcome exposes a successful query without the
requested ref. -/
theorem validateTarget_query_failure_witness :
    validateTarget (str "v9.9.9") (str "tag") (.error ()) = ⟨true, [], 0⟩ ∧
    ∃ tags, (.ok (renderTags cexEntries) : Except Unit JSStr) = .ok tags ∧
      jsIncludes tags (refsTags ++ str "v9.9.9") = false :=
  ⟨(validateTarget_query_failure (str "v9.9.9") (str "tag")).1,
    (validateTarget_query_failure (str "v9.9.9") (str "tag")).2
      (.ok (renderTags cexEntries)) (by decide)⟩

-- ============================================================================
-- Git repository model (setupGitRepository, ensureMainBranchFromCurrentState,
-- createMainBranchFromCurrent, bin/helpers.js)
-- ============================================================================

/-- The template repository URL hard-coded in the installer. -/
def templateUrl : JSStr := str "https://github.com/LebCit/aether-cms.git"

/-- The canonical integration branch name. -/
def mainStr : JSStr := str "main"

/-- The remote names used by the installer. -/
def originStr : JSStr := str "origin"

def upstreamStr : JSStr := str "upstream"

/-- Association-list lookup on (name, value) pairs, modelling git's
branch/remote name resolution. -/
def assocLookup (k : JSStr) : List (JSStr × JSStr) → Option JSStr
  | [] => none
  | p :: rest => if p.1 = k then some p.2 else assocLookup k rest

/-- Replace the value bound to `k` (or add the binding when absent),
modelling `git branch -f`. -/
def assocForce (k v : JSStr) (l : List (JSStr × JSStr)) : List (JSStr × JSStr) :=
  if (assocLookup k l).isSome then
    l.map (fun p => if p.1 = k then (p.1, v) else p)
  else (k, v) :: l

/-- The git-visible state of the cloned working copy: current branch
(`none` when detached), current revision id, local branches, configured
remotes, and the two repository-level merge settings the installer writes.
Commit objects are abstracted: the final `git add . && git commit` is
modelled as a counter bump, since no claim depends on the new commit id. -/
structure RepoState where
  branch : Option JSStr
  head : JSStr
  branches : List (JSStr × JSStr)
  remotes : List (JSStr × JSStr)
  mergeOursDriver : Bool
  pullRebaseFalse : Bool
  commits : Nat
deriving DecidableEq

/-- Environmental availability/success of each git capability the installer
invokes.  A command succeeds only when its flag is set *and* its intrinsic
git precondition holds; `false` models an old git version or an
environmental failure, which surfaces as a thrown `execSync` error. -/
structure GitEnv where
  switchOk : Bool
  checkoutBOk : Bool
  branchCreateOk : Bool
  checkoutOk : Bool
  branchForceOk : Bool
  revParseOk : Bool
  remoteRenameOk : Bool
  remoteRemoveOk : Bool
  remoteAddOk : Bool
  configOk : Bool
  addCommitOk : Bool
  pushOk : Bool
deriving DecidableEq

/-- Result of one git command: `ok` with the new state, or `error` carrying
the (unchanged) state at the moment of the throw. -/
abbrev GRes := Except RepoState RepoState

/-- `git switch -c main`: create `main` at HEAD and switch to it; fails if a
branch named `main` already exists (or the capability is unavailable). -/
def gitSwitchCreate (env : GitEnv) (st : RepoState) : GRes :=
  if env.switchOk ∧ (assocLookup mainStr st.branches).isNone then
    .ok { st with branches := (mainStr, st.head) :: st.branches,
                  branch := some mainStr }
  else .error st

/-- `git checkout -b main`: semantically the legacy equivalent of
`git switch -c main`. -/
def gitCheckoutB (env : GitEnv) (st : RepoState) : GRes :=
  if env.checkoutBOk ∧ (assocLookup mainStr st.branches).isNone then
    .ok { st with branches := (mainStr, st.head) :: st.branches,
                  branch := some mainStr }
  else .error st

/-- `git branch main <commit>`: create the branch without switching; fails
if `main` already exists. -/
def gitBranchCreate (env : GitEnv) (c : JSStr) (st : RepoState) : GRes :=
  if env.branchCreateOk ∧ (assocLookup mainStr st.branches).isNone then
    .ok { st with branches := (mainStr, c) :: st.branches }
  else .error st

/-- `git branch -f main <commit>`: force-move (or create) `main`. -/
def gitBranchForce (env : GitEnv) (c : JSStr) (st : RepoState) : GRes :=
  if env.branchForceOk then
    .ok { st with branches := assocForce mainStr c st.branches }
  else .error st

/-- `git checkout main`: switch to the existing `main` branch. -/
def gitCheckout (env : GitEnv) (st : RepoState) : GRes :=
  if env.checkoutOk then
    match assocLookup mainStr st.branches with
    | some c => .ok { st with branch := some mainStr, head := c }
    | none => .error st
  else .error st

/-- `git rev-parse HEAD`: read the current revision id. -/
def gitRevParseHead (env : GitEnv) (st : RepoState) : Except RepoState JSStr :=
  if env.revParseOk then .ok st.head else .error st

/-- `git remote rename origin upstream`. -/
def gitRemoteRename (env : GitEnv) (st : RepoState) : GRes :=
  if env.remoteRenameOk ∧ (assocLookup originStr st.remotes).isSome ∧
      (assocLookup upstreamStr st.remotes).isNone then
    .ok { st with remotes :=
      st.remotes.map (fun p => if p.1 = originStr then (upstreamStr, p.2) else p) }
  else .error st

/-- `git remote remove origin`. -/
def gitRemoteRemove (env : GitEnv) (st : RepoState) : GRes :=
  if env.remoteRemoveOk ∧ (assocLookup originStr st.remotes).isSome then
    .ok { st with remotes := st.remotes.filter (fun p => !(p.1 = originStr : Bool)) }
  else .error st

/-- `git remote add <name> <url>`: fails if the remote already exists. -/
def gitRemoteAdd (env : GitEnv) (name url : JSStr) (st : RepoState) : GRes :=
  if env.remoteAddOk ∧ (assocLookup name st.remotes).isNone then
    .ok { st with remotes := st.remotes ++ [(name, url)] }
  else .error st

/-- `git config merge.ours.driver true`. -/
def gitConfigMergeOurs (env : GitEnv) (st : RepoState) : GRes :=
  if env.configOk then .ok { st with mergeOursDriver := true } else .error st

/-- `git config pull.rebase false`. -/
def gitConfigPullRebase (env : GitEnv) (st : RepoState) : GRes :=
  if env.configOk then .ok { st with pullRebaseFalse := true } else .error st

/-- `git add . && git commit -m ...`, abstracted to a commit-count bump. -/
def gitAddCommit (env : GitEnv) (st : RepoState) : GRes :=
  if env.addCommitOk then .ok { st with commits := st.commits + 1 } else .error st

/-- `git push -u origin main`: no modelled repository state change. -/
def gitPush (env : GitEnv) (st : RepoState) : GRes :=
  if env.pushOk then .ok st else .error st

/-- Strategy (c) of `createMainBranchFromCurrent`: manual branch creation at
the current revision id followed by an explicit switch.  A failure of the
second command propagates the partially-mutated state (the branch was
created but not switched to), exactly as two sequential `execSync` calls
behave. -/
def manualBranchCreation (env : GitEnv) (st : RepoState) : GRes :=
  match gitRevParseHead env st with
  | .error s => .error s
  | .ok c =>
    match gitBranchCreate env c st with
    | .error s => .error s
    | .ok s2 => gitCheckout env s2

/-- Model of `createMainBranchFromCurrent`: the three-strategy ladder, with
the list of strategies attempted (1 = `git switch -c main`,
2 = `git checkout -b main`, 3 = manual creation + switch).  A failed
strategy leaves the state unchanged and falls through to the next; the
error of the last strategy is rethrown. -/
def createMainBranchFromCurrent (env : GitEnv) (st : RepoState) :
    GRes × List Nat :=
  match gitSwitchCreate env st with
  | .ok s => (.ok s, [1])
  | .error _ =>
    match gitCheckoutB env st with
    | .ok s => (.ok s, [1, 2])
    | .error _ => (manualBranchCreation env st, [1, 2, 3])

/-- The fallback of the ON_OTHER branch of
`ensureMainBranchFromCurrentState`: read HEAD, force-move `main` to it,
switch to `main`. -/
def forceMainFallback (env : GitEnv) (st : RepoState) : GRes :=
  match gitRevParseHead env st with
  | .error s => .error s
  | .ok c =>
    match gitBranchForce env c st with
    | .error s => .error s
    | .ok s2 => gitCheckout env s2

/-- The observable outcome of `ensureMainBranchFromCurrentState`: the
resulting repository state, whether the outer catch fired (a logged
warning — never a fatal abort, as the function always returns), and which
branch-creation/switching strategies were attempted (4 = the force-move
fallback of the ON_OTHER state). -/
structure NormalizeResult where
  state : RepoState
  warned : Bool
  tried : List Nat
deriving DecidableEq

/-- Model of `ensureMainBranchFromCurrentState`: read the current branch
(`git symbolic-ref --short HEAD`, a pure read); if detached, run the
three-strategy ladder; if on a branch other than `main`, try
`git checkout -b main` and fall back to force-moving `main`; if already on
`main`, do nothing. -/
def ensureMainBranchFromCurrentState (env : GitEnv) (st : RepoState) :
    NormalizeResult :=
  match st.branch with
  | none =>
    match createMainBranchFromCurrent env st with
    | (.ok s, tr) => ⟨s, false, tr⟩
    | (.error s, tr) => ⟨s, true, tr⟩
  | some b =>
    if b = mainStr then ⟨st, false, []⟩
    else
      match gitCheckoutB env st with
      | .ok s => ⟨s, false, [2]⟩
      | .error _ =>
        match forceMainFallback env st with
        | .ok s => ⟨s, false, [2, 4]⟩
        | .error s => ⟨s, true, [2, 4]⟩

/-- The answers supplied by the interactive prompt collaborator during
`setupGitRepository`. -/
structure Answers where
  connectAnswer : JSStr
  repoUrl : JSStr
  pushAnswer : JSStr
deriving DecidableEq

/-- Model of JavaScript `s.toLowerCase()` (sufficient for the `"y"` test). -/
def jsToLower (s : JSStr) : JSStr := s.map Char.toLower

/-- Whitespace recognised by JavaScript `trim()` (the subset relevant
here). -/
def isJsSpace (c : Char) : Bool :=
  c = ' ' ∨ c = '\t' ∨ c = '\n' ∨ c = '\r'

/-- Model of JavaScript `s.trim()`. -/
def jsTrim (s : JSStr) : JSStr :=
  ((s.dropWhile isJsSpace).reverse.dropWhile isJsSpace).reverse

/-- The remote-reconfiguration block of `setupGitRepository`: rename
`origin` to `upstream`; on failure, fall back to removing `origin` and
re-adding `upstream` at the known template URL.  Every failure inside this
block is caught and logged, so it always yields a state (possibly partially
mutated: a successful remove followed by a failed add loses `origin`
without gaining `upstream`). -/
def remotePhase (env : GitEnv) (st : RepoState) : RepoState :=
  match gitRemoteRename env st with
  | .ok s => s
  | .error _ =>
    match gitRemoteRemove env st with
    | .error s => s
    | .ok s2 =>
      match gitRemoteAdd env upstreamStr templateUrl s2 with
      | .error s3 => s3
      | .ok s3 => s3

/-- The optional own-repository block of `setupGitRepository`: when the
user answers `y` and supplies a non-empty URL, add it as `origin` (failure
caught and logged) and, when requested, push (failure caught and
logged). -/
def pushPhase (env : GitEnv) (ans : Answers) (s : RepoState) : RepoState :=
  if jsToLower ans.pushAnswer = str "y" then
    match gitPush env s with
    | .ok s2 => s2
    | .error s2 => s2
  else s

def userRemotePhase (env : GitEnv) (ans : Answers) (st : RepoState) : RepoState :=
  if jsToLower ans.connectAnswer = str "y" ∧ jsTrim ans.repoUrl ≠ [] then
    match gitRemoteAdd env originStr (jsTrim ans.repoUrl) st with
    | .error s => s
    | .ok s => pushPhase env ans s
  else st

/-- Model of `setupGitRepository` (the try block after `process.chdir`):
rename `origin` to `upstream` with a remove-and-re-add fallback (both
failures caught, logged, and swallowed); two unconditional config writes
(whose failure escapes to the outer catch); the optional own-repository
remote and push (failures caught and logged); and the final
`git add . && git commit` (failure escapes to the outer catch).  Returns
the final state together with whether the outer catch fired (a warning;
`setupGitRepository` never rethrows). -/
def setupGitRepository (env : GitEnv) (ans : Answers) (st : RepoState) :
    RepoState × Bool :=
  match gitConfigMergeOurs env (remotePhase env st) with
  | .error s => (s, true)
  | .ok st2 =>
    match gitConfigPullRebase env st2 with
    | .error s => (s, true)
    | .ok st3 =>
      match gitAddCommit env (userRemotePhase env ans st3) with
      | .error s => (s, true)
      | .ok st5 => (st5, false)

/-- The outcome of the post-clone portion of the installation pipeline
(everything after a successful `git clone` + optional checkout): the final
repository state, the warning flags of the two git phases, and the
branch-strategy trace.  Because every post-clone failure is caught and
logged, this function is total: every run it models is a run the installer
reports as successful. -/
structure PipelineResult where
  repo : RepoState
  branchWarned : Bool
  setupWarned : Bool
  strategiesTried : List Nat
deriving DecidableEq

/-- The post-clone pipeline: `ensureMainBranchFromCurrentState` (invoked at
the end of `cloneRepository`) followed by `setupGitRepository` (invoked by
`installProject`; the intervening file-scaffolding and `npm install` steps
do not touch git state). -/
def bootstrapPipeline (env : GitEnv) (ans : Answers) (st0 : RepoState) :
    PipelineResult :=
  let n := ensureMainBranchFromCurrentState env st0
  let s := setupGitRepository env ans n.state
  ⟨s.1, n.warned, s.2, n.tried⟩

theorem assocLookup_mapReplace (k v : JSStr) :
    ∀ l : List (JSStr × JSStr), (assocLookup k l).isSome = true →
      assocLookup k (l.map (fun p => if p.1 = k then (p.1, v) else p)) =
        some v := by
  intro l
  induction l with
  | nil => intro h; simp [assocLookup] at h
  | cons p rest ih =>
    intro h
    by_cases hpk : p.1 = k
    · rw [List.map_cons, if_pos hpk]
      show (if p.1 = k then some v
        else assocLookup k (rest.map (fun p => if p.1 = k then (p.1, v) else p))) =
        some v
      rw [if_pos hpk]
    · have h2 : (assocLookup k rest).isSome = true := by
        unfold assocLookup at h
        rw [if_neg hpk] at h
        exact h
      rw [List.map_cons, if_neg hpk]
      show (if p.1 = k then some p.2
        else assocLookup k (rest.map (fun p => if p.1 = k then (p.1, v) else p))) =
        some v
      rw [if_neg hpk]
      exact ih h2

theorem assocLookup_force (k v : JSStr) (l : List (JSStr × JSStr)) :
    assocLookup k (assocForce k v l) = some v := by
  unfold assocForce
  by_cases h : (assocLookup k l).isSome = true
  · rw [if_pos h]
    exact assocLookup_mapReplace k v l h
  · rw [if_neg h]
    simp [assocLookup]

theorem ensureMain_noop_aux (env : GitEnv) (st : RepoState)
    (h : st.branch = some mainStr) :
    ensureMainBranchFromCurrentState env st = ⟨st, false, []⟩ := by
  unfold ensureMainBranchFromCurrentState
  rw [h]
  simp

theorem ensureMain_onOther_aux (env : GitEnv) (st : RepoState) (b : JSStr)
    (hb : st.branch = some b) (hbm : b ≠ mainStr)
    (hcb : env.checkoutBOk = true) (hrp : env.revParseOk = true)
    (hbf : env.branchForceOk = true) (hco : env.checkoutOk = true) :
    (ensureMainBranchFromCurrentState env st).state.branch = some mainStr ∧
    assocLookup mainStr
      (ensureMainBranchFromCurrentState env st).state.branches = some st.head ∧
    (ensureMainBranchFromCurrentState env st).state.head = st.head ∧
    (ensureMainBranchFromCurrentState env st).state.remotes = st.remotes ∧
    (ensureMainBranchFromCurrentState env st).warned = false ∧
    (assocLookup mainStr st.branches = none →
      (ensureMainBranchFromCurrentState env st).tried = [2]) ∧
    (assocLookup mainStr st.branches ≠ none →
      (ensureMainBranchFromCurrentState env st).tried = [2, 4]) := by
  have hred : ensureMainBranchFromCurrentState env st =
      (match gitCheckoutB env st with
        | .ok s => ⟨s, false, [2]⟩
        | .error _ =>
          match forceMainFallback env st with
          | .ok s => ⟨s, false, [2, 4]⟩
          | .error s => ⟨s, true, [2, 4]⟩) := by
    unfold ensureMainBranchFromCurrentState
    rw [hb]
    show (if b = mainStr then (⟨st, false, []⟩ : NormalizeResult)
      else match gitCheckoutB env st with
        | .ok s => ⟨s, false, [2]⟩
        | .error _ =>
          match forceMainFallback env st with
          | .ok s => ⟨s, false, [2, 4]⟩
          | .error s => ⟨s, true, [2, 4]⟩) = _
    rw [if_neg hbm]
  cases hml : assocLookup mainStr st.branches with
  | none =>
    have hok : gitCheckoutB env st =
        .ok { st with branches := (mainStr, st.head) :: st.branches,
                      branch := some mainStr } := by
      unfold gitCheckoutB
      rw [if_pos ⟨hcb, by rw [hml]; rfl⟩]
    rw [hred, hok]
    refine ⟨rfl, ?_, rfl, rfl, rfl, fun _ => rfl, fun h => absurd rfl h⟩
    show (if mainStr = mainStr then some st.head
      else assocLookup mainStr st.branches) = some st.head
    rw [if_pos rfl]
  | some c =>
    have herr : gitCheckoutB env st = .error st := by
      have hcond : ¬ (env.checkoutBOk = true ∧
          (assocLookup mainStr st.branches).isNone = true) := by
        rw [hml]
        rintro ⟨-, h2⟩
        simp at h2
      unfold gitCheckoutB
      rw [if_neg hcond]
    have h1 : gitRevParseHead env st = .ok st.head := by
      unfold gitRevParseHead
      rw [if_pos hrp]
    have h2 : gitBranchForce env st.head st =
        .ok { st with branches := assocForce mainStr st.head st.branches } := by
      unfold gitBranchForce
      rw [if_pos hbf]
    have h3 : gitCheckout env
        { st with branches := assocForce mainStr st.head st.branches } =
        .ok { st with branches := assocForce mainStr st.head st.branches,
                      branch := some mainStr, head := st.head } := by
      unfold gitCheckout
      rw [if_pos hco]
      rw [show assocLookup mainStr
          ({ st with branches := assocForce mainStr st.head st.branches } :
            RepoState).branches = some st.head from assocLookup_force _ _ _]
    have hfb : forceMainFallback env st =
        .ok { st with branches := assocForce mainStr st.head st.branches,
                      branch := some mainStr, head := st.head } := by
      unfold forceMainFallback
      rw [h1]
      show (match gitBranchForce env st.head st with
        | .error s => Except.error s
        | .ok s2 => gitCheckout env s2) = _
      rw [h2]
      show gitCheckout env
        { st with branches := assocForce mainStr st.head st.branches } = _
      exact h3
    rw [hred, herr, hfb]
    refine ⟨rfl, assocLookup_force _ _ _, rfl, rfl, rfl,
      fun h => Option.noConfusion h, fun _ => rfl⟩

theorem ensureMain_success (env : GitEnv) (st : RepoState)
    (hsw : env.switchOk = true) (hcb : env.checkoutBOk = true)
    (hrp : env.revParseOk = true) (hbf : env.branchForceOk = true)
    (hco : env.checkoutOk = true)
    (hd : st.branch = none → assocLookup mainStr st.branches = none) :
    (ensureMainBranchFromCurrentState env st).state.branch = some mainStr ∧
    (ensureMainBranchFromCurrentState env st).state.remotes = st.remotes ∧
    (ensureMainBranchFromCurrentState env st).warned = false := by
  cases hb : st.branch with
  | none =>
    have hswc : gitSwitchCreate env st =
        .ok { st with branches := (mainStr, st.head) :: st.branches,
                      branch := some mainStr } := by
      unfold gitSwitchCreate
      rw [if_pos ⟨hsw, by rw [hd hb]; rfl⟩]
    unfold ensureMainBranchFromCurrentState createMainBranchFromCurrent
    rw [hb, hswc]
    exact ⟨rfl, rfl, rfl⟩
  | some b =>
    by_cases hbm : b = mainStr
    · subst hbm
      rw [ensureMain_noop_aux env st hb]
      exact ⟨hb, rfl, rfl⟩
    · obtain ⟨h1, _, _, h4, h5, _⟩ :=
        ensureMain_onOther_aux env st b hb hbm hcb hrp hbf hco
      exact ⟨h1, h4, h5⟩

theorem remotePhase_rename (env : GitEnv) (st : RepoState)
    (hrr : env.remoteRenameOk = true)
    (hrem : st.remotes = [(originStr, templateUrl)]) :
    remotePhase env st = { st with remotes := [(upstreamStr, templateUrl)] } := by
  have h1 : gitRemoteRename env st =
      .ok { st with remotes := [(upstreamStr, templateUrl)] } := by
    unfold gitRemoteRename
    rw [if_pos ⟨hrr, by rw [hrem]; decide, by rw [hrem]; decide⟩]
    rw [hrem]
    rw [show List.map
        (fun p => if p.1 = originStr then (upstreamStr, p.2) else p)
        [(originStr, templateUrl)] = [(upstreamStr, templateUrl)] from by decide]
  unfold remotePhase
  rw [h1]

theorem pushPhase_id (env : GitEnv) (ans : Answers) (s : RepoState) :
    pushPhase env ans s = s := by
  unfold pushPhase gitPush
  by_cases hp : jsToLower ans.pushAnswer = str "y"
  · rw [if_pos hp]
    by_cases h : env.pushOk = true
    · rw [if_pos h]
    · rw [if_neg h]
  · rw [if_neg hp]

theorem userRemotePhase_cases (env : GitEnv) (ans : Answers) (st : RepoState) :
    userRemotePhase env ans st = st ∨
    userRemotePhase env ans st =
      { st with remotes := st.remotes ++ [(originStr, jsTrim ans.repoUrl)] } := by
  unfold userRemotePhase
  by_cases hq : jsToLower ans.connectAnswer = str "y" ∧ jsTrim ans.repoUrl ≠ []
  · rw [if_pos hq]
    by_cases ha : env.remoteAddOk = true ∧
        (assocLookup originStr st.remotes).isNone = true
    · rw [show gitRemoteAdd env originStr (jsTrim ans.repoUrl) st =
          .ok { st with remotes := st.remotes ++ [(originStr, jsTrim ans.repoUrl)] }
          from by unfold gitRemoteAdd; rw [if_pos ha]]
      exact Or.inr (pushPhase_id env ans _)
    · rw [show gitRemoteAdd env originStr (jsTrim ans.repoUrl) st = .error st
          from by unfold gitRemoteAdd; rw [if_neg ha]]
      exact Or.inl rfl
  · rw [if_neg hq]
    exact Or.inl rfl

theorem setupGit_outcome (env : GitEnv) (ans : Answers) (st : RepoState)
    (hrr : env.remoteRenameOk = true) (hcf : env.configOk = true)
    (hac : env.addCommitOk = true)
    (hrem : st.remotes = [(originStr, templateUrl)])
    (hurl : jsTrim ans.repoUrl ≠ templateUrl) :
    (setupGitRepository env ans st).1.branch = st.branch ∧
    assocLookup upstreamStr (setupGitRepository env ans st).1.remotes =
      some templateUrl ∧
    assocLookup originStr (setupGitRepository env ans st).1.remotes ≠
      some templateUrl := by
  have hc1 : gitConfigMergeOurs env (remotePhase env st) =
      .ok { st with remotes := [(upstreamStr, templateUrl)],
                    mergeOursDriver := true } := by
    rw [remotePhase_rename env st hrr hrem]
    unfold gitConfigMergeOurs
    rw [if_pos hcf]
  have hc2 : gitConfigPullRebase env
      { st with remotes := [(upstreamStr, templateUrl)],
                mergeOursDriver := true } =
      .ok { st with remotes := [(upstreamStr, templateUrl)],
                    mergeOursDriver := true, pullRebaseFalse := true } := by
    unfold gitConfigPullRebase
    rw [if_pos hcf]
  rcases userRemotePhase_cases env ans
      { st with remotes := [(upstreamStr, templateUrl)],
                mergeOursDriver := true, pullRebaseFalse := true } with hu | hu
  · have hsetup : setupGitRepository env ans st =
        ({ st with remotes := [(upstreamStr, templateUrl)],
                   mergeOursDriver := true, pullRebaseFalse := true,
                   commits := st.commits + 1 }, false) := by
      unfold setupGitRepository
      rw [hc1]
      show (match gitConfigPullRebase env
          { st with remotes := [(upstreamStr, templateUrl)],
                    mergeOursDriver := true } with
        | .error s => (s, true)
        | .ok st3 =>
          match gitAddCommit env (userRemotePhase env ans st3) with
          | .error s => (s, true)
          | .ok st5 => (st5, false)) = _
      rw [hc2]
      show (match gitAddCommit env (userRemotePhase env ans
          { st with remotes := [(upstreamStr, templateUrl)],
                    mergeOursDriver := true, pullRebaseFalse := true }) with
        | .error s => (s, true)
        | .ok st5 => (st5, false)) = _
      rw [hu]
      unfold gitAddCommit
      rw [if_pos hac]
    rw [hsetup]
    refine ⟨rfl, ?_, ?_⟩
    · show (if upstreamStr = upstreamStr then some templateUrl
        else assocLookup upstreamStr []) = some templateUrl
      rw [if_pos rfl]
    · show (if upstreamStr = originStr then some templateUrl
        else assocLookup originStr []) ≠ some templateUrl
      rw [if_neg (by decide)]
      show (none : Option JSStr) ≠ some templateUrl
      simp
  · have hsetup : setupGitRepository env ans st =
        ({ st with remotes := [(upstreamStr, templateUrl)] ++
                     [(originStr, jsTrim ans.repoUrl)],
                   mergeOursDriver := true, pullRebaseFalse := true,
                   commits := st.commits + 1 }, false) := by
      unfold setupGitRepository
      rw [hc1]
      show (match gitConfigPullRebase env
          { st with remotes := [(upstreamStr, templateUrl)],
                    mergeOursDriver := true } with
        | .error s => (s, true)
        | .ok st3 =>
          match gitAddCommit env (userRemotePhase env ans st3) with
          | .error s => (s, true)
          | .ok st5 => (st5, false)) = _
      rw [hc2]
      show (match gitAddCommit env (userRemotePhase env ans
          { st with remotes := [(upstreamStr, templateUrl)],
                    mergeOursDriver := true, pullRebaseFalse := true }) with
        | .error s => (s, true)
        | .ok st5 => (st5, false)) = _
      rw [hu]
      unfold gitAddCommit
      rw [if_pos hac]
    rw [hsetup]
    refine ⟨rfl, ?_, ?_⟩
    · show (if upstreamStr = upstreamStr then some templateUrl
        else assocLookup upstreamStr [(originStr, jsTrim ans.repoUrl)]) =
        some templateUrl
      rw [if_pos rfl]
    · show (if upstreamStr = originStr then some templateUrl
        else assocLookup originStr [(originStr, jsTrim ans.repoUrl)]) ≠
        some templateUrl
      rw [if_neg (by decide)]
      show (if originStr = originStr then some (jsTrim ans.repoUrl)
        else assocLookup originStr []) ≠ some templateUrl
      rw [if_pos rfl]
      intro heq
      exact hurl (Option.some.inj heq)

/-- A git environment in which every capability is available and every
command succeeds whenever its intrinsic git precondition holds. -/
def envAll : GitEnv :=
  ⟨true, true, true, true, true, true, true, true, true, true, true, true⟩

/-- Post-clone state: detached at the target revision, no local branch
(e.g. a clone whose checkout pruned local branches), template remote. -/
def stDetached : RepoState :=
  ⟨none, str "abc1234", [], [(originStr, templateUrl)], false, false, 0⟩

/-- Post-clone state of the realistic `--hash` flow: the clone created a
local `main` (the template's default branch), then `git checkout <hash>`
detached the working copy; `main` still points at the old default tip. -/
def stDetachedMain : RepoState :=
  ⟨none, str "abc1234", [(mainStr, str "f00dfeed")],
    [(originStr, templateUrl)], false, false, 0⟩

/-- Post-clone state already on `main`. -/
def stOnMain : RepoState :=
  ⟨some mainStr, str "abc1234", [(mainStr, str "abc1234")],
    [(originStr, templateUrl)], false, false, 0⟩

/-- Post-clone state on a branch other than `main`, with a stale local
`main` elsewhere in history. -/
def stOnOther : RepoState :=
  ⟨some (str "develop"), str "abc1234",
    [(str "develop", str "abc1234"), (mainStr, str "f00dfeed")],
    [(originStr, templateUrl)], false, false, 0⟩

/-- Prompt answers declining the own-repository setup. -/
def ansNo : Answers := ⟨str "n", [], []⟩

/-- C7: when the working copy is already on `main`, the Branch Normalizer
invokes no branch-creation or branch-switching strategy (empty strategy
trace) and returns the repository state completely unchanged. -/
theorem ensureMain_already_main (env : GitEnv) (st : RepoState)
    (h : st.branch = some mainStr) :
    ensureMainBranchFromCurrentState env st = ⟨st, false, []⟩ :=
  ensureMain_noop_aux env st h

/-- Witness for C7: a concrete state already on `main` is returned
unchanged with no strategies tried. -/
theorem ensureMain_already_main_witness :
    ensureMainBranchFromCurrentState envAll stOnMain = ⟨stOnMain, false, []⟩ :=
  ensureMain_already_main envAll stOnMain rfl

/-- C8: from a detached state, the Branch Normalizer tries exactly the
three strategies in strict order — (1) `git switch -c main`,
(2) `git checkout -b main`, (3) manual branch creation plus explicit
switch — stopping at the first success, with each failure falling through
to the next; when all three fail, the outcome is a logged warning with the
pipeline continuing (the normalizer still returns a state), never a fatal
abort. -/
theorem ensureMain_detached_strategies (env : GitEnv) (st : RepoState)
    (h : st.branch = none) :
    (∀ s, gitSwitchCreate env st = .ok s →
      ensureMainBranchFromCurrentState env st = ⟨s, false, [1]⟩) ∧
    (∀ s2 s, gitSwitchCreate env st = .error s2 →
      gitCheckoutB env st = .ok s →
      ensureMainBranchFromCurrentState env st = ⟨s, false, [1, 2]⟩) ∧
    (∀ s2 s3 s, gitSwitchCreate env st = .error s2 →
      gitCheckoutB env st = .error s3 →
      manualBranchCreation env st = .ok s →
      ensureMainBranchFromCurrentState env st = ⟨s, false, [1, 2, 3]⟩) ∧
    (∀ s2 s3 s4, gitSwitchCreate env st = .error s2 →
      gitCheckoutB env st = .error s3 →
      manualBranchCreation env st = .error s4 →
      ensureMainBranchFromCurrentState env st = ⟨s4, true, [1, 2, 3]⟩) := by
  refine ⟨?_, ?_, ?_, ?_⟩
  · intro s hs
    unfold ensureMainBranchFromCurrentState createMainBranchFromCurrent
    rw [h, hs]
  · intro s2 s hs2 hs
    unfold ensureMainBranchFromCurrentState createMainBranchFromCurrent
    rw [h, hs2, hs]
  · intro s2 s3 s hs2 hs3 hs
    unfold ensureMainBranchFromCurrentState createMainBranchFromCurrent
    rw [h, hs2, hs3, hs]
  · intro s2 s3 s4 hs2 hs3 hs4
    unfold ensureMainBranchFromCurrentState createMainBranchFromCurrent
    rw [h, hs2, hs3, hs4]

/-- Witness for C8: the first strategy succeeds on a clean detached state
(trace `[1]`); all three fail when a stale `main` already exists (trace
`[1, 2, 3]`, warning, no abort). -/
theorem ensureMain_detached_strategies_witness :
    ensureMainBranchFromCurrentState envAll stDetached =
      ⟨{ stDetached with branches := [(mainStr, str "abc1234")],
                         branch := some mainStr }, false, [1]⟩ ∧
    ensureMainBranchFromCurrentState envAll stDetachedMain =
      ⟨stDetachedMain, true, [1, 2, 3]⟩ :=
  ⟨(ensureMain_detached_strategies envAll stDetached rfl).1 _ rfl,
   (ensureMain_detached_strategies envAll stDetachedMain rfl).2.2.2 _ _ _
     rfl rfl rfl⟩

/-- C9: from a branch other than `main`, the Branch Normalizer first
attempts `git checkout -b main` (trace `[2]` when `main` does not yet
exist); when that fails because `main` already exists, it force-moves the
existing `main` reference to the current revision id and switches to it
(trace `[2, 4]`); in either case, after success `main` points exactly at
the current (resolved-target) revision, regardless of where any
pre-existing `main` pointed, and the working copy is on `main`. -/
theorem ensureMain_on_other_branch (env : GitEnv) (st : RepoState) (b : JSStr)
    (hb : st.branch = some b) (hbm : b ≠ mainStr)
    (hcb : env.checkoutBOk = true) (hrp : env.revParseOk = true)
    (hbf : env.branchForceOk = true) (hco : env.checkoutOk = true) :
    (ensureMainBranchFromCurrentState env st).state.branch = some mainStr ∧
    assocLookup mainStr
      (ensureMainBranchFromCurrentState env st).state.branches = some st.head ∧
    (ensureMainBranchFromCurrentState env st).state.head = st.head ∧
    (ensureMainBranchFromCurrentState env st).warned = false ∧
    (assocLookup mainStr st.branches = none →
      (ensureMainBranchFromCurrentState env st).tried = [2]) ∧
    (assocLookup mainStr st.branches ≠ none →
      (ensureMainBranchFromCurrentState env st).tried = [2, 4]) := by
  obtain ⟨h1, h2, h3, _, h5, h6, h7⟩ :=
    ensureMain_onOther_aux env st b hb hbm hcb hrp hbf hco
  exact ⟨h1, h2, h3, h5, h6, h7⟩

/-- Witness for C9: from `develop` with a stale `main`, the normalizer
lands on `main` at the current revision via the force-move fallback. -/
theorem ensureMain_on_other_branch_witness :
    (ensureMainBranchFromCurrentState envAll stOnOther).state.branch =
      some mainStr ∧
    assocLookup mainStr
      (ensureMainBranchFromCurrentState envAll stOnOther).state.branches =
      some stOnOther.head ∧
    (ensureMainBranchFromCurrentState envAll stOnOther).state.head =
      stOnOther.head ∧
    (ensureMainBranchFromCurrentState envAll stOnOther).warned = false ∧
    (assocLookup mainStr stOnOther.branches = none →
      (ensureMainBranchFromCurrentState envAll stOnOther).tried = [2]) ∧
    (assocLookup mainStr stOnOther.branches ≠ none →
      (ensureMainBranchFromCurrentState envAll stOnOther).tried = [2, 4]) :=
  ensureMain_on_other_branch envAll stOnOther (str "develop") rfl (by decide)
    rfl rfl rfl rfl

/-- C6 counterexample: a successful run of the realistic `--hash` flow
(every git command available and succeeding when its precondition holds)
ends *detached*, not on `main`: the clone left a local `main`, the checkout
detached HEAD, and all three detached-state strategies fail intrinsically
because a branch named `main` already exists — which the installer treats
as a warning and continues, reporting overall success. -/
theorem bootstrapPipeline_missed_invariant :
    (bootstrapPipeline envAll ansNo stDetachedMain).repo.branch = none ∧
    (bootstrapPipeline envAll ansNo stDetachedMain).branchWarned = true ∧
    (bootstrapPipeline envAll ansNo stDetachedMain).setupWarned = false := by
  decide

/-- C6 (amended): for every successful pipeline run in which the branch
normalization and the remote reconfiguration steps themselves succeed
(their failures are deliberately only warnings) — i.e. the relevant git
capabilities work and, when the working copy is detached, no stale `main`
branch blocks creation — the final state has current branch `main`, a
remote named `upstream` pointing at the template source URL, and no remote
named `origin` pointing at the template source. -/
theorem bootstrapPipeline_invariant (env : GitEnv) (ans : Answers)
    (st0 : RepoState)
    (hsw : env.switchOk = true) (hcb : env.checkoutBOk = true)
    (hrp : env.revParseOk = true) (hbf : env.branchForceOk = true)
    (hco : env.checkoutOk = true) (hrr : env.remoteRenameOk = true)
    (hcf : env.configOk = true) (hac : env.addCommitOk = true)
    (hrem : st0.remotes = [(originStr, templateUrl)])
    (hd : st0.branch = none → assocLookup mainStr st0.branches = none)
    (hurl : jsTrim ans.repoUrl ≠ templateUrl) :
    (bootstrapPipeline env ans st0).repo.branch = some mainStr ∧
    assocLookup upstreamStr (bootstrapPipeline env ans st0).repo.remotes =
      some templateUrl ∧
    assocLookup originStr (bootstrapPipeline env ans st0).repo.remotes ≠
      some templateUrl := by
  obtain ⟨hb, hr, _⟩ := ensureMain_success env st0 hsw hcb hrp hbf hco hd
  have hrem2 : (ensureMainBranchFromCurrentState env st0).state.remotes =
      [(originStr, templateUrl)] := by rw [hr, hrem]
  obtain ⟨g1, g2, g3⟩ := setupGit_outcome env ans
    (ensureMainBranchFromCurrentState env st0).state hrr hcf hac hrem2 hurl
  refine ⟨?_, g2, g3⟩
  show (setupGitRepository env ans
    (ensureMainBranchFromCurrentState env st0).state).1.branch = some mainStr
  rw [g1, hb]

/-- Witness for C6 (amended): a clean detached clone normalizes to `main`
with `upstream` configured and no template-pointing `origin`. -/
theorem bootstrapPipeline_invariant_witness :
    (bootstrapPipeline envAll ansNo stDetached).repo.branch = some mainStr ∧
    assocLookup upstreamStr
      (bootstrapPipeline envAll ansNo stDetached).repo.remotes =
      some templateUrl ∧
    assocLookup originStr
      (bootstrapPipeline envAll ansNo stDetached).repo.remotes ≠
      some templateUrl :=
  bootstrapPipeline_invariant envAll ansNo stDetached rfl rfl rfl rfl rfl rfl
    rfl rfl rfl (fun _ => rfl) (by decide)

-- ============================================================================
-- Update-Metadata Stamper (updatePackageJson, bin/helpers.js)
-- ============================================================================

/-- The `installOptions` record stored in the manifest: the full selector
used for the installation. -/
structure InstallOptions where
  version : Option JSStr
  tag : Option JSStr
  hash : Option JSStr
deriving DecidableEq

/-- The `aetherCMS` sub-document written into the manifest. -/
structure AetherMeta where
  templateName : JSStr
  templateVersion : JSStr
  templateRepository : Option JSStr
  installedVersion : JSStr
  installedAt : JSStr
  installedFrom : JSStr
  installOptions : InstallOptions
deriving DecidableEq

/-- The fields of `package.json` that `updatePackageJson` reads or writes
(`private` is a Lean keyword, modelled as `isPrivate`). -/
structure PackageJson where
  name : JSStr
  version : JSStr
  repository : Option JSStr
  isPrivate : Bool
  scriptsStart : Option JSStr
  scriptsBuild : Option JSStr
  scriptsCheckUpdates : Option JSStr
  scriptsUpdateAether : Option JSStr
  aetherCMS : Option AetherMeta
deriving DecidableEq

/-- The `installedVersion` computation of `updatePackageJson`: hash, else
tag, else non-"latest" version, else the first 7 characters of the trimmed
`git rev-parse HEAD` output; if that git query throws, the value stays the
initial `"unknown"` (the catch only logs a warning). -/
def computeInstalledVersion (options : Options)
    (headResult : Except Unit JSStr) : JSStr :=
  if truthy options.hash then options.hash.getD []
  else if truthy options.tag then options.tag.getD []
  else if truthy options.version &&
      !(options.version.getD [] = str "latest" : Bool) then
    options.version.getD []
  else
    match headResult with
    | .ok h => (jsTrim h).take 7
    | .error _ => str "unknown"

/-- Model of `updatePackageJson(targetPath, projectName, options)`: `pkg`
is the parsed manifest when the file exists (`none` when it does not, in
which case nothing is written and nothing is raised); `now` is the
installation timestamp; `headResult` the `git rev-parse HEAD` output. -/
def updatePackageJson (pkg : Option PackageJson) (projectName : JSStr)
    (options : Options) (now : JSStr) (headResult : Except Unit JSStr) :
    Option PackageJson :=
  match pkg with
  | none => none
  | some p =>
    let installedVersion := computeInstalledVersion options headResult
    some { p with
      name := projectName
      version := str "0.1.0"
      isPrivate := true
      scriptsStart := some (p.scriptsStart.getD (str "node index.js"))
      scriptsBuild :=
        some (p.scriptsBuild.getD (str "node assets/js/generate-static.js --"))
      scriptsCheckUpdates := some (str "node assets/js/check-updates.js")
      scriptsUpdateAether := some (str "node assets/js/update-aether.js")
      aetherCMS := some
        ⟨p.name, p.version, p.repository, installedVersion, now,
          str "create-aether-cms",
          ⟨options.version, options.tag, options.hash⟩⟩ }

/-- C5: when the manifest exists, the stamper writes an `aetherCMS`
sub-document whose `installOptions` is the full selector used, and whose
`installedVersion` is: the hash if one was given; else the tag if one was
given; else the version string if given and not `"latest"`; else the first
7 characters of the trimmed current HEAD revision id. -/
theorem updatePackageJson_stamps (p : PackageJson) (projectName : JSStr)
    (o : Options) (now : JSStr) (q : Except Unit JSStr) :
    ∃ p2, updatePackageJson (some p) projectName o now q = some p2 ∧
      ∃ m, p2.aetherCMS = some m ∧
        m.installOptions = ⟨o.version, o.tag, o.hash⟩ ∧
        (truthy o.hash = true → m.installedVersion = o.hash.getD []) ∧
        (truthy o.hash = false → truthy o.tag = true →
          m.installedVersion = o.tag.getD []) ∧
        (truthy o.hash = false → truthy o.tag = false →
          truthy o.version = true → o.version.getD [] ≠ str "latest" →
          m.installedVersion = o.version.getD []) ∧
        (∀ h, truthy o.hash = false → truthy o.tag = false →
          (truthy o.version = false ∨ o.version.getD [] = str "latest") →
          q = .ok h → m.installedVersion = (jsTrim h).take 7) := by
  refine ⟨_, rfl, _, rfl, rfl, ?_, ?_, ?_, ?_⟩
  · intro h1
    simp [computeInstalledVersion, h1]
  · intro h1 h2
    simp [computeInstalledVersion, h1, h2]
  · intro h1 h2 h3 h4
    simp [computeInstalledVersion, h1, h2, h3, h4]
  · intro h h1 h2 h3 hq
    rcases h3 with h3 | h3 <;>
      simp [computeInstalledVersion, h1, h2, h3, hq]

/-- Witness for C5: a `latest` install stamps the short form of the
acquired HEAD revision and records the full selector. -/
theorem updatePackageJson_stamps_witness :
    ∃ p2, updatePackageJson
        (some ⟨str "aether-cms", str "1.2.0", none, false, none, none, none,
          none, none⟩)
        (str "my-site") ⟨some (str "latest"), none, none⟩
        (str "2026-01-01T00:00:00.000Z")
        (.ok (str "abc1234def5678\n")) = some p2 ∧
      ∃ m, p2.aetherCMS = some m ∧
        m.installOptions = ⟨some (str "latest"), none, none⟩ ∧
        m.installedVersion = str "abc1234" := by
  obtain ⟨p2, hp2, m, hm, hopt, _, _, _, h5⟩ := updatePackageJson_stamps
    ⟨str "aether-cms", str "1.2.0", none, false, none, none, none, none, none⟩
    (str "my-site") ⟨some (str "latest"), none, none⟩
    (str "2026-01-01T00:00:00.000Z") (.ok (str "abc1234def5678\n"))
  refine ⟨p2, hp2, m, hm, hopt, ?_⟩
  have hv := h5 (str "abc1234def5678\n") rfl rfl (Or.inr rfl) rfl
  rw [hv]
  decide

/-- C10: if the project manifest does not exist at the destination, the
Update-Metadata Stamper is a complete no-op — it writes nothing and raises
nothing (the model is a total function returning `none`, i.e. no write),
for every selector, timestamp and git state. -/
theorem updatePackageJson_missing_manifest (projectName : JSStr) (o : Options)
    (now : JSStr) (q : Except Unit JSStr) :
    updatePackageJson none projectName o now q = none := rfl
